import Mathlib

/-!
Verification of the ACRN device-model IOC mediator core, a shallow embedding
of hw/platform/ioc.c.  Pure data (queues, the ring buffer, request records)
is carried explicitly; external effects (the write and read system calls,
device opens) are supplied as oracles listing or mapping their results, so
every definition below mirrors one C function of the source file.
-/

namespace Ioc

/-! Channel transmit, ioc_ch_xmit (ioc.c lines 473-496). -/

/-- Result of one write(2) call: a nonnegative byte count, a would-block
failure (errno EAGAIN), or any other failure.  The C code only tests
rc < 0, so the two failure forms must behave identically there. -/
inductive WriteRes where
  | ok (n : Nat)
  | eagain
  | wrerr
  deriving DecidableEq

/-- Loop body of ioc_ch_xmit: while count < size, issue a write; a negative
return breaks out of the loop, otherwise the count advances by the bytes
written.  The oracle list supplies successive write results; theorems only
use lists long enough to cover the run. -/
def xmit_loop (size : Nat) : Nat → List WriteRes → Nat
  | count, [] => count
  | count, w :: ws =>
    if count < size then
      match w with
      | WriteRes.ok n => xmit_loop size (count + n) ws
      | WriteRes.eagain => count
      | WriteRes.wrerr => count
    else count

/-- ioc_ch_xmit: fails with -1 when the fd is invalid or the buffer empty,
otherwise runs the write loop and returns the byte count written. -/
def ioc_ch_xmit (fd : Int) (size : Nat) (writes : List WriteRes) : Int :=
  if fd < 0 ∨ size = 0 then -1
  else (xmit_loop size 0 writes : Nat)

/-- Total bytes carried by the successful writes of an oracle list. -/
def sumWrites : List WriteRes → Nat
  | [] => 0
  | WriteRes.ok n :: ws => n + sumWrites ws
  | WriteRes.eagain :: ws => sumWrites ws
  | WriteRes.wrerr :: ws => sumWrites ws

/-- True on a successful write result. -/
def isOk : WriteRes → Bool
  | WriteRes.ok _ => true
  | _ => false

/-! Request and queue model (ioc.c lines 647-795).  A cbc_request carries a
byte buffer and metadata; the ioc_dev state carries the CBC ring and the
three SIMPLEQ queues.  Queue order lists head first. -/

/-- Queue selector, enum cbc_queue_type. -/
inductive CbcQueueType where
  | free
  | rx
  | tx
  deriving DecidableEq

/-- Modelled from the spec: the request kind distinguishes framed-protocol
requests (CBC_REQ_T_PROT) from raw ones; the enum lives in the ioc.h header
that is not part of the sources. -/
inductive CbcRequestType where
  | prot
  | raw
  deriving DecidableEq

/-- One pooled cbc_request: buffer bytes (indexed by position), the link and
service lengths, the request kind and the originating channel id. -/
structure CbcRequest where
  buf : Nat → Nat
  link_len : Nat
  srv_len : Nat
  rtype : CbcRequestType
  chan_id : Nat

/-- The cbc_ring of struct ioc_dev: backing bytes and the head index. -/
structure CbcRing where
  buf : Nat → Nat
  head : Nat

/-- The queue-visible part of struct ioc_dev. -/
structure IocState where
  ring : CbcRing
  freeq : List CbcRequest
  rxq : List CbcRequest
  txq : List CbcRequest

/-- cbc_request_enqueue (ioc.c 647-680): pick the queue of the requested
type, splice at head or tail, and signal the condition variable when the
queue has one (rx and tx only; the free queue selects a null cond).  The
returned flag records whether pthread_cond_signal was called. -/
def cbc_request_enqueue (st : IocState) (req : CbcRequest)
    (qtype : CbcQueueType) (to_head : Bool) : IocState × Bool :=
  match qtype with
  | CbcQueueType.rx =>
    ({ st with rxq := if to_head then req :: st.rxq else st.rxq ++ [req] }, true)
  | CbcQueueType.tx =>
    ({ st with txq := if to_head then req :: st.txq else st.txq ++ [req] }, true)
  | CbcQueueType.free =>
    ({ st with freeq := if to_head then req :: st.freeq else st.freeq ++ [req] }, false)

/-- cbc_request_dequeue (ioc.c 688-702): only the free queue supports the
operation; its head is popped when present, every other queue type yields
null and leaves the state untouched. -/
def cbc_request_dequeue (st : IocState) (qtype : CbcQueueType) :
    Option CbcRequest × IocState :=
  match qtype with
  | CbcQueueType.free =>
    match st.freeq with
    | [] => (none, st)
    | r :: rest => (some r, { st with freeq := rest })
  | CbcQueueType.rx => (none, st)
  | CbcQueueType.tx => (none, st)

/-- Copy loop of ioc_build_request: for i below n, write ring byte
(head + i) masked by rsize - 1 into buffer slot i. -/
def cbc_ring_copy (ring : CbcRing) (rsize : Nat) (buf : Nat → Nat) :
    Nat → Nat → Nat
  | 0 => buf
  | n + 1 => fun j =>
    if j = n then ring.buf ((ring.head + n) &&& (rsize - 1))
    else cbc_ring_copy ring rsize buf n j

/-- ioc_build_request (ioc.c 708-728): take a free request (dropping the
frame when the pool is exhausted), fill its buffer from the ring, set the
two lengths, and enqueue it at the rx queue tail.  rsize stands for
CBC_RING_BUFFER_SIZE, a power of two from the ioc.h header. -/
def ioc_build_request (rsize : Nat) (st : IocState)
    (link_len srv_len : Nat) : IocState :=
  match cbc_request_dequeue st CbcQueueType.free with
  | (none, _) => st
  | (some req, st1) =>
    let req1 : CbcRequest :=
      { req with
        buf := cbc_ring_copy st.ring rsize req.buf link_len,
        srv_len := srv_len,
        link_len := link_len }
    (cbc_request_enqueue st1 req1 CbcQueueType.rx false).1

/-- ioc_process_tx (ioc.c 753-795): take a free request (dropping the datum
when the pool is exhausted), read one service frame worth of bytes at
offset srv_pos (CBC_SRV_POS of the header) of its buffer; on a read of
count <= 0 return the request to the free queue tail, otherwise stamp the
request and enqueue it at the tx queue tail.  recv_count and recv_bytes
are the oracle for the ioc_ch_recv call. -/
def ioc_process_tx (srv_pos : Nat) (st : IocState) (chan : Nat)
    (recv_count : Int) (recv_bytes : Nat → Nat) : IocState × Int :=
  match cbc_request_dequeue st CbcQueueType.free with
  | (none, _) => (st, -1)
  | (some req, st1) =>
    if recv_count ≤ 0 then
      ((cbc_request_enqueue st1 req CbcQueueType.free false).1, -1)
    else
      let req1 : CbcRequest :=
        { req with
          buf := fun j =>
            if srv_pos ≤ j ∧ j < srv_pos + recv_count.toNat
            then recv_bytes (j - srv_pos) else req.buf j,
          srv_len := recv_count.toNat,
          link_len := 0,
          rtype := CbcRequestType.prot,
          chan_id := chan }
      ((cbc_request_enqueue st1 req1 CbcQueueType.tx false).1, 0)

/-- One iteration of ioc_rx_thread past its condition wait (ioc.c 894-913):
pop the rx queue head, run the handler (which may rewrite the request and
sets packet.qtype, reset to the free queue beforehand), then route: head
insertion into tx when the handler chose tx, tail insertion into free
otherwise. -/
def ioc_rx_thread_iter (st : IocState)
    (handler : CbcRequest → CbcQueueType × CbcRequest) : IocState :=
  match st.rxq with
  | [] => st
  | req :: rest =>
    let st1 : IocState := { st with rxq := rest }
    let p := handler req
    if p.1 = CbcQueueType.tx then
      (cbc_request_enqueue st1 p.2 CbcQueueType.tx true).1
    else
      (cbc_request_enqueue st1 p.2 CbcQueueType.free false).1

/-- One iteration of ioc_tx_thread past its condition wait (ioc.c 946-965):
pop the tx queue head, run the handler, then route: head insertion into rx
when the handler chose rx, tail insertion into free otherwise. -/
def ioc_tx_thread_iter (st : IocState)
    (handler : CbcRequest → CbcQueueType × CbcRequest) : IocState :=
  match st.txq with
  | [] => st
  | req :: rest =>
    let st1 : IocState := { st with txq := rest }
    let p := handler req
    if p.1 = CbcQueueType.rx then
      (cbc_request_enqueue st1 p.2 CbcQueueType.rx true).1
    else
      (cbc_request_enqueue st1 p.2 CbcQueueType.free false).1

/-! Sample data used by the closed witness theorems. -/

/-- A concrete request used in witnesses. -/
def sampleReq (k : Nat) : CbcRequest :=
  { buf := fun _ => 0, link_len := 0, srv_len := 0,
    rtype := CbcRequestType.raw, chan_id := k }

/-- A concrete ring used in witnesses. -/
def sampleRing : CbcRing :=
  { buf := fun i => i + 100, head := 5 }

/-- A concrete state used in witnesses. -/
def sampleState : IocState :=
  { ring := sampleRing, freeq := [sampleReq 0, sampleReq 1],
    rxq := [], txq := [] }

/-! Request-pool conservation model (ioc.c 647-702, 708-795, 894-965,
1091-1094).  Requests are identified by their pool index; the state keeps
the three queues plus the request each worker currently holds, and one step
is any of the queue movements the source performs. -/

/-- Queue-occupancy state of the request pool: the free, rx and tx SIMPLEQ
contents (head first) and the request, if any, each worker thread has
dequeued and not yet routed. -/
structure PoolState where
  free : List Nat
  rx : List Nat
  tx : List Nat
  rxw : Option Nat
  txw : Option Nat

/-- State after ioc_init placed all n pool entries on the free queue
(ioc.c 1091-1094). -/
def initPoolState (n : Nat) : PoolState :=
  { free := List.range n, rx := [], tx := [], rxw := none, txw := none }

/-- One queue movement of the source: ioc_build_request moving a free
request to the rx tail; ioc_process_tx moving a free request to the tx
tail, or back to the free tail on a failed read; a worker popping its
queue head; a worker routing its held request to the opposite queue head
or the free tail.  Steps that move nothing (drops on pool exhaustion) need
no transition. -/
inductive PoolStep : PoolState → PoolState → Prop where
  | build_ok (s : PoolState) (r : Nat) (f : List Nat) :
      s.free = r :: f → PoolStep s { s with free := f, rx := s.rx ++ [r] }
  | proc_tx_ok (s : PoolState) (r : Nat) (f : List Nat) :
      s.free = r :: f → PoolStep s { s with free := f, tx := s.tx ++ [r] }
  | proc_tx_err (s : PoolState) (r : Nat) (f : List Nat) :
      s.free = r :: f → PoolStep s { s with free := f ++ [r] }
  | rx_take (s : PoolState) (r : Nat) (q : List Nat) :
      s.rx = r :: q → s.rxw = none → PoolStep s { s with rx := q, rxw := some r }
  | rx_fwd (s : PoolState) (r : Nat) :
      s.rxw = some r → PoolStep s { s with tx := r :: s.tx, rxw := none }
  | rx_drop (s : PoolState) (r : Nat) :
      s.rxw = some r → PoolStep s { s with free := s.free ++ [r], rxw := none }
  | tx_take (s : PoolState) (r : Nat) (q : List Nat) :
      s.tx = r :: q → s.txw = none → PoolStep s { s with tx := q, txw := some r }
  | tx_fwd (s : PoolState) (r : Nat) :
      s.txw = some r → PoolStep s { s with rx := r :: s.rx, txw := none }
  | tx_drop (s : PoolState) (r : Nat) :
      s.txw = some r → PoolStep s { s with free := s.free ++ [r], txw := none }

/-- States reachable from the initial pool layout under any interleaving of
the queue movements. -/
def PoolReachable (n : Nat) (s : PoolState) : Prop :=
  Relation.ReflTransGen PoolStep (initPoolState n) s

/-- Every place a request can be, concatenated: the three queues and the
two workers. -/
def allReqs (s : PoolState) : List Nat :=
  s.free ++ s.rx ++ s.tx ++ s.rxw.toList ++ s.txw.toList

/-! Channel table initialisation, ioc_ch_init (ioc.c 561-614) over the
channel table ioc_ch_tbl (ioc.c 144-170, without the IOC_DUMMY block). -/

/-- Modelled from the spec: the ioc_ch_id enumeration lives in the missing
ioc.h header; its values follow the channel-table order (the source keeps
the table and the enum aligned, cf. the comment at ioc.c 838-840).
Lifecycle channel index. -/
def IOC_NATIVE_LFCC : Nat := 1

/-- Modelled from the spec: signal channel index, see IOC_NATIVE_LFCC. -/
def IOC_NATIVE_SIGNAL : Nat := 2

/-- Modelled from the spec: first raw channel index, see IOC_NATIVE_LFCC. -/
def IOC_NATIVE_RAW0 : Nat := 7

/-- Modelled from the spec: last raw channel index, see IOC_NATIVE_LFCC. -/
def IOC_NATIVE_RAW11 : Nat := 18

/-- Modelled from the spec: virtual UART channel index, see
IOC_NATIVE_LFCC. -/
def IOC_VIRTUAL_UART : Nat := 19

/-- Modelled from the spec: IOC_INIT_FD marks a channel without an open
descriptor; any negative value is treated as invalid by the source. -/
def IOC_INIT_FD : Int := -1

/-- Enabled flags of the 20 ioc_ch_tbl entries, in table order: PMT off,
LFCC on, SIGNAL on, ESIG off, DIAG off, DLT off, LINDA off, RAW0-RAW11 on,
virtual UART on. -/
def ioc_ch_stat_tbl : List Bool :=
  [false, true, true, false, false, false, false,
   true, true, true, true, true, true, true, true, true, true, true, true,
   true]

/-- The switch of ioc_ch_init: native channels and the virtual UART call
their open helper (whose result the oracle supplies per index), every other
index falls to the default branch with fd = -1. -/
def ioc_ch_open_fd (openRes : Nat → Int) (i : Nat) : Int :=
  if i = IOC_NATIVE_LFCC ∨ i = IOC_NATIVE_SIGNAL ∨
     (IOC_NATIVE_RAW0 ≤ i ∧ i ≤ IOC_NATIVE_RAW11) then openRes i
  else if i = IOC_VIRTUAL_UART then openRes i
  else -1

/-- Loop of ioc_ch_init from table position i: disabled channels are
skipped (their fd stays IOC_INIT_FD), a negative fd on the lifecycle or
virtual UART index aborts the whole initialisation (none), any other fd is
recorded and the loop continues. -/
def ioc_ch_init_go (openRes : Nat → Int) : Nat → List Bool → Option (List Int)
  | _, [] => some []
  | i, stat :: rest =>
    if stat = false then
      (ioc_ch_init_go openRes (i + 1) rest).map (fun fds => IOC_INIT_FD :: fds)
    else
      let fd := ioc_ch_open_fd openRes i
      if fd < 0 ∧ (i = IOC_NATIVE_LFCC ∨ i = IOC_VIRTUAL_UART) then none
      else (ioc_ch_init_go openRes (i + 1) rest).map (fun fds => fd :: fds)

/-- ioc_ch_init: walk the whole channel table; none models the -1 return,
some fds the successful return with the fd column of the table. -/
def ioc_ch_init (openRes : Nat → Int) : Option (List Int) :=
  ioc_ch_init_go openRes 0 ioc_ch_stat_tbl

/-! ioc_init entry sequence (ioc.c 1054-1183) and ioc_parse
(ioc.c 1035-1049). -/

/-- Externally visible actions ioc_init may have performed by the time it
returns: pool allocation attempted, channel table opened (which includes
the virtual UART symlink creation), any worker thread created. -/
structure InitEffects where
  pool_alloc : Bool
  channels_opened : Bool
  symlink_created : Bool
  threads_started : Bool
  deriving DecidableEq

/-- No externally visible action yet. -/
def noEffects : InitEffects :=
  { pool_alloc := false, channels_opened := false,
    symlink_created := false, threads_started := false }

/-- Entry sequence of ioc_init, tracking its effects: the platform check
and the boot-reason check come before any allocation, channel open or
thread creation; later failures return null with the effects already
performed.  The oracles give the platform stat result, the allocation and
epoll results, the channel-open results and the thread-creation result. -/
def ioc_init (platform_ok : Bool) (boot_reason : Nat) (alloc_ok : Bool)
    (epoll_ok : Bool) (openRes : Nat → Int) (threads_ok : Bool) :
    Bool × InitEffects :=
  if platform_ok = false then (false, noEffects)
  else if boot_reason = 0 then (false, noEffects)
  else
    let e1 : InitEffects := { noEffects with pool_alloc := true }
    if alloc_ok = false then (false, e1)
    else if epoll_ok = false then (false, e1)
    else
      let e2 : InitEffects :=
        { e1 with channels_opened := true, symlink_created := true }
      match ioc_ch_init openRes with
      | none => (false, e2)
      | some _ =>
        let e3 : InitEffects := { e2 with threads_started := true }
        if threads_ok = false then (false, e3) else (true, e3)

/-- Split a character list at commas, keeping the pieces between
delimiters (possibly empty ones are produced at delimiter runs and get
filtered away by strtokCommaToks). -/
def commaSplit : List Char → List (List Char)
  | [] => []
  | c :: cs =>
    let acc := commaSplit cs
    if c = ',' then [] :: acc
    else
      match acc with
      | [] => [[c]]
      | t :: ts => (c :: t) :: ts

/-- The strtok(3) token sequence of a string for the single delimiter
comma: maximal nonempty runs of non-comma characters, which is exactly
what successive strtok(param, ",") and strtok(NULL, ",") calls return. -/
def strtokCommaToks (s : String) : List (List Char) :=
  (commaSplit s.data).filter (fun t => t ≠ [])

/-- Argument flow of ioc_parse into strtoul (ioc.c 1041-1045): none when
the first strtok returned null so the guarded branch is skipped; otherwise
some arg, where arg is the second token when present and none models the
null pointer handed to strtoul. -/
def ioc_parse_strtoul_arg (opts : String) : Option (Option (List Char)) :=
  match strtokCommaToks opts with
  | [] => none
  | _ :: rest => some rest.head?

/-- A concrete channel-open oracle for witnesses: every open succeeds with
fd 1 except the first raw channel, whose open fails. -/
def sampleOpen : Nat → Int := fun i => if i = 7 then -1 else 1

/-- A concrete pool state for the conservation witness: request 0 moved to
the rx queue out of a pool of two. -/
def poolWitState : PoolState :=
  { free := [1], rx := [0], tx := [], rxw := none, txw := none }

/-- A concrete handler for the worker-routing witness: forward everything,
leaving the request unchanged. -/
def sampleFwdHandler : CbcRequest → CbcQueueType × CbcRequest :=
  fun r => (CbcQueueType.tx, r)

/-- A concrete state with a request waiting on the rx queue. -/
def sampleRxState : IocState :=
  { ring := sampleRing, freeq := [sampleReq 0],
    rxq := [sampleReq 2], txq := [] }

/-! Theorems. -/

/-- Helper: a run of purely successful writes whose byte counts add up to
exactly the remaining size ends with the full buffer written. -/
theorem xmit_loop_all_ok (size : Nat) :
    ∀ (ws : List WriteRes) (count : Nat), ws.all isOk = true →
      count + sumWrites ws = size → xmit_loop size count ws = size := by
  intro ws
  induction ws with
  | nil =>
    intro count _ hsum
    simp [sumWrites] at hsum
    simpa [xmit_loop] using hsum
  | cons w ws ih =>
    intro count hall hsum
    cases w with
    | ok n =>
      simp only [List.all_cons, Bool.and_eq_true] at hall
      simp only [sumWrites] at hsum
      by_cases hc : count < size
      · simp only [xmit_loop, if_pos hc]
        exact ih (count + n) hall.2 (by omega)
      · simp only [xmit_loop, if_neg hc]
        omega
    | eagain => simp [List.all_cons, isOk] at hall
    | wrerr => simp [List.all_cons, isOk] at hall

/-- Claim C1 (counterexample): with a valid fd and a 3-byte buffer, a
would-block write result makes ioc_ch_xmit return immediately with 0 bytes
written even though a following write would have delivered all 3 bytes, so
EAGAIN is not retried within the loop; a genuine short write (0 bytes,
nonnegative) in the same position is retried and all 3 bytes get
written. -/
theorem ioc_ch_xmit_eagain_counterexample :
    ioc_ch_xmit 0 3 [WriteRes.eagain, WriteRes.ok 3] = 0 ∧
    ioc_ch_xmit 0 3 [WriteRes.eagain, WriteRes.ok 3] ≠ 3 ∧
    ioc_ch_xmit 0 3 [WriteRes.ok 0, WriteRes.ok 3] = 3 := by
  decide

/-- Claim C1 (amended): for a channel with a valid fd and a non-empty
buffer of size n, ioc_ch_xmit loops issuing writes until all n bytes are
written or some write returns a negative result; nonnegative short writes
are retried within the loop, while a negative result — EAGAIN included,
since the code only tests rc < 0 — terminates the loop at once, returning
the bytes written so far. -/
theorem ioc_ch_xmit_spec (fd : Int) (size : Nat)
    (hfd : 0 ≤ fd) (hsz : 0 < size) :
    (∀ ws, ws.all isOk = true → sumWrites ws = size →
      ioc_ch_xmit fd size ws = (size : Int)) ∧
    (∀ count ws, count < size →
      xmit_loop size count (WriteRes.eagain :: ws) = count) ∧
    (∀ count ws, count < size →
      xmit_loop size count (WriteRes.wrerr :: ws) = count) := by
  refine ⟨?_, ?_, ?_⟩
  · intro ws hall hsum
    have hcond : ¬(fd < 0 ∨ size = 0) := by
      push_neg
      exact ⟨by omega, by omega⟩
    simp only [ioc_ch_xmit, if_neg hcond]
    rw [xmit_loop_all_ok size ws 0 hall (by omega)]
  · intro count ws hc
    simp [xmit_loop, hc]
  · intro count ws hc
    simp [xmit_loop, hc]

/-- Claim C1 (witness): the amended theorem applied at fd 0, a 2-byte
buffer and two successful 1-byte writes. -/
theorem ioc_ch_xmit_spec_witness :
    (0 : Int) ≤ 0 ∧ 0 < 2 ∧
    ioc_ch_xmit 0 2 [WriteRes.ok 1, WriteRes.ok 1] = ((2 : Nat) : Int) :=
  ⟨le_refl 0, by decide,
    (ioc_ch_xmit_spec 0 2 (le_refl 0) (by decide)).1
      [WriteRes.ok 1, WriteRes.ok 1] (by decide) (by decide)⟩

/-- Claim C5: cbc_request_enqueue splices the request at the head when
to_head is true and at the tail otherwise, on the queue its type selects,
and the condition-variable signal fires exactly for the rx and tx queues;
an enqueue on the free queue signals no one. -/
theorem cbc_request_enqueue_spec (st : IocState) (req : CbcRequest)
    (to_head : Bool) :
    cbc_request_enqueue st req CbcQueueType.rx to_head =
      ({ st with rxq := if to_head then req :: st.rxq else st.rxq ++ [req] },
        true) ∧
    cbc_request_enqueue st req CbcQueueType.tx to_head =
      ({ st with txq := if to_head then req :: st.txq else st.txq ++ [req] },
        true) ∧
    cbc_request_enqueue st req CbcQueueType.free to_head =
      ({ st with
          freeq := if to_head then req :: st.freeq else st.freeq ++ [req] },
        false) ∧
    (∀ q : CbcQueueType, (cbc_request_enqueue st req q to_head).2 = true ↔
      (q = CbcQueueType.rx ∨ q = CbcQueueType.tx)) := by
  refine ⟨rfl, rfl, rfl, ?_⟩
  intro q
  cases q <;> simp [cbc_request_enqueue]

/-- Claim C8: cbc_request_dequeue pops the head of the free queue without
blocking, yielding none on an empty free queue, and for every other queue
type returns none leaving the state unchanged. -/
theorem cbc_request_dequeue_spec (st : IocState) :
    cbc_request_dequeue st CbcQueueType.free =
      (st.freeq.head?, { st with freeq := st.freeq.tail }) ∧
    (∀ q : CbcQueueType, q ≠ CbcQueueType.free →
      cbc_request_dequeue st q = (none, st)) := by
  constructor
  · cases h : st.freeq with
    | nil =>
      obtain ⟨ring, fq, rq, tq⟩ := st
      simp at h
      simp [cbc_request_dequeue, h]
    | cons r rest => simp [cbc_request_dequeue, h]
  · intro q hq
    cases q with
    | free => exact absurd rfl hq
    | rx => rfl
    | tx => rfl

/-- Claim C8 (witness): dequeueing from the rx queue type on a concrete
state returns none and leaves the state unchanged. -/
theorem cbc_request_dequeue_spec_witness :
    CbcQueueType.rx ≠ CbcQueueType.free ∧
    cbc_request_dequeue sampleState CbcQueueType.rx = (none, sampleState) :=
  ⟨by decide,
    (cbc_request_dequeue_spec sampleState).2 CbcQueueType.rx (by decide)⟩

/-- Helper: positions below n hold the ring bytes after the copy loop. -/
theorem cbc_ring_copy_lt (ring : CbcRing) (rsize : Nat) (buf : Nat → Nat) :
    ∀ n j, j < n → cbc_ring_copy ring rsize buf n j =
      ring.buf ((ring.head + j) &&& (rsize - 1)) := by
  intro n
  induction n with
  | zero => intro j h; omega
  | succ n ih =>
    intro j h
    by_cases hj : j = n
    · subst hj; simp [cbc_ring_copy]
    · have hlt : j < n := by omega
      simp [cbc_ring_copy, hj, ih j hlt]

/-- Helper: positions at or above n are untouched by the copy loop. -/
theorem cbc_ring_copy_ge (ring : CbcRing) (rsize : Nat) (buf : Nat → Nat) :
    ∀ n j, n ≤ j → cbc_ring_copy ring rsize buf n j = buf j := by
  intro n
  induction n with
  | zero => intro j _; rfl
  | succ n ih =>
    intro j h
    have hj : j ≠ n := by omega
    simp [cbc_ring_copy, hj, ih j (by omega)]

/-- Claim C3: ioc_build_request drops the frame and changes nothing when
the free queue is empty; otherwise it pops the free-queue head, fills its
buffer positions below link_len with the ring bytes at head + i masked by
the ring size less one, records link_len and srv_len, leaves the remaining
buffer and metadata alone, and appends the request at the rx queue
tail. -/
theorem ioc_build_request_spec (rsize : Nat) (st : IocState) (ll sl : Nat) :
    (st.freeq = [] → ioc_build_request rsize st ll sl = st) ∧
    (∀ r rest, st.freeq = r :: rest →
      (ioc_build_request rsize st ll sl).freeq = rest ∧
      (ioc_build_request rsize st ll sl).txq = st.txq ∧
      (ioc_build_request rsize st ll sl).ring = st.ring ∧
      ∃ r1, (ioc_build_request rsize st ll sl).rxq = st.rxq ++ [r1] ∧
        r1.link_len = ll ∧ r1.srv_len = sl ∧
        (∀ i, i < ll →
          r1.buf i = st.ring.buf ((st.ring.head + i) &&& (rsize - 1))) ∧
        (∀ i, ll ≤ i → r1.buf i = r.buf i) ∧
        r1.rtype = r.rtype ∧ r1.chan_id = r.chan_id) := by
  constructor
  · intro h
    simp [ioc_build_request, cbc_request_dequeue, h]
  · intro r rest h
    refine ⟨?_, ?_, ?_, ?_⟩ <;>
      simp only [ioc_build_request, cbc_request_dequeue, h,
        cbc_request_enqueue, Bool.false_eq_true, if_false]
    exact ⟨_, rfl, rfl, rfl,
      fun i hi => cbc_ring_copy_lt st.ring rsize r.buf ll i hi,
      fun i hi => cbc_ring_copy_ge st.ring rsize r.buf ll i hi, rfl, rfl⟩

/-- Claim C3 (witness): the theorem applied to a two-request pool, ring
size 8, link length 3 and service length 7. -/
theorem ioc_build_request_spec_witness :
    sampleState.freeq = sampleReq 0 :: [sampleReq 1] ∧
    ((ioc_build_request 8 sampleState 3 7).freeq = [sampleReq 1] ∧
      (ioc_build_request 8 sampleState 3 7).txq = sampleState.txq ∧
      (ioc_build_request 8 sampleState 3 7).ring = sampleState.ring ∧
      ∃ r1, (ioc_build_request 8 sampleState 3 7).rxq =
          sampleState.rxq ++ [r1] ∧
        r1.link_len = 3 ∧ r1.srv_len = 7 ∧
        (∀ i, i < 3 → r1.buf i =
          sampleState.ring.buf ((sampleState.ring.head + i) &&& (8 - 1))) ∧
        (∀ i, 3 ≤ i → r1.buf i = (sampleReq 0).buf i) ∧
        r1.rtype = (sampleReq 0).rtype ∧
        r1.chan_id = (sampleReq 0).chan_id) :=
  ⟨rfl, (ioc_build_request_spec 8 sampleState 3 7).2
    (sampleReq 0) [sampleReq 1] rfl⟩

/-- Claim C4: ioc_process_tx with an empty free queue drops the datum and
changes no queue, returning -1; with a free request and a read of
count <= 0 it returns the request to the free queue tail leaving rx and tx
unchanged and returns -1; with a positive read it stamps the request with
srv_len = count, link_len = 0, the framed-protocol kind and the channel
id, and appends it at the tx queue tail. -/
theorem ioc_process_tx_spec (srv_pos : Nat) (st : IocState) (chan : Nat)
    (cnt : Int) (bytes : Nat → Nat) :
    (st.freeq = [] →
      ioc_process_tx srv_pos st chan cnt bytes = (st, -1)) ∧
    (∀ r rest, st.freeq = r :: rest → cnt ≤ 0 →
      ioc_process_tx srv_pos st chan cnt bytes =
        ({ st with freeq := rest ++ [r] }, -1)) ∧
    (∀ r rest, st.freeq = r :: rest → 0 < cnt →
      (ioc_process_tx srv_pos st chan cnt bytes).2 = 0 ∧
      (ioc_process_tx srv_pos st chan cnt bytes).1.freeq = rest ∧
      (ioc_process_tx srv_pos st chan cnt bytes).1.rxq = st.rxq ∧
      ∃ r1, (ioc_process_tx srv_pos st chan cnt bytes).1.txq =
          st.txq ++ [r1] ∧
        r1.srv_len = cnt.toNat ∧ r1.link_len = 0 ∧
        r1.rtype = CbcRequestType.prot ∧ r1.chan_id = chan) := by
  refine ⟨?_, ?_, ?_⟩
  · intro h
    simp [ioc_process_tx, cbc_request_dequeue, h]
  · intro r rest h hcnt
    simp [ioc_process_tx, cbc_request_dequeue, h, cbc_request_enqueue,
      if_pos hcnt]
  · intro r rest h hcnt
    have hcnt2 : ¬ cnt ≤ 0 := by omega
    refine ⟨?_, ?_, ?_, ?_⟩ <;>
      simp only [ioc_process_tx, cbc_request_dequeue, h, hcnt2,
        cbc_request_enqueue, Bool.false_eq_true, if_false]
    exact ⟨_, rfl, rfl, rfl, rfl, rfl⟩

/-- Claim C4 (witness): the theorem applied to a two-request pool, channel
id 2 and a successful 5-byte read. -/
theorem ioc_process_tx_spec_witness :
    sampleState.freeq = sampleReq 0 :: [sampleReq 1] ∧ (0 : Int) < 5 ∧
    ((ioc_process_tx 2 sampleState 2 5 (fun _ => 9)).2 = 0 ∧
      (ioc_process_tx 2 sampleState 2 5 (fun _ => 9)).1.freeq =
        [sampleReq 1] ∧
      (ioc_process_tx 2 sampleState 2 5 (fun _ => 9)).1.rxq =
        sampleState.rxq ∧
      ∃ r1, (ioc_process_tx 2 sampleState 2 5 (fun _ => 9)).1.txq =
          sampleState.txq ++ [r1] ∧
        r1.srv_len = (5 : Int).toNat ∧ r1.link_len = 0 ∧
        r1.rtype = CbcRequestType.prot ∧ r1.chan_id = 2) :=
  ⟨rfl, by decide, (ioc_process_tx_spec 2 sampleState 2 5 (fun _ => 9)).2.2
    (sampleReq 0) [sampleReq 1] rfl (by decide)⟩

/-- Claim C6: an rx-worker iteration head-inserts the processed request
into the tx queue exactly when the handler set the packet queue type to
tx, and tail-inserts it into the free queue for every other queue type;
the tx worker symmetrically head-inserts into rx exactly on queue type rx
and tail-inserts into free otherwise. -/
theorem ioc_worker_routing_spec (st : IocState)
    (handler : CbcRequest → CbcQueueType × CbcRequest)
    (req : CbcRequest) (rest : List CbcRequest) :
    (st.rxq = req :: rest →
      ((handler req).1 = CbcQueueType.tx →
        ioc_rx_thread_iter st handler =
          { st with rxq := rest, txq := (handler req).2 :: st.txq }) ∧
      ((handler req).1 ≠ CbcQueueType.tx →
        ioc_rx_thread_iter st handler =
          { st with rxq := rest, freeq := st.freeq ++ [(handler req).2] })) ∧
    (st.txq = req :: rest →
      ((handler req).1 = CbcQueueType.rx →
        ioc_tx_thread_iter st handler =
          { st with txq := rest, rxq := (handler req).2 :: st.rxq }) ∧
      ((handler req).1 ≠ CbcQueueType.rx →
        ioc_tx_thread_iter st handler =
          { st with txq := rest, freeq := st.freeq ++ [(handler req).2] })) := by
  constructor
  · intro h
    constructor
    · intro hq
      simp [ioc_rx_thread_iter, h, hq, cbc_request_enqueue]
    · intro hq
      simp [ioc_rx_thread_iter, h, hq, cbc_request_enqueue]
  · intro h
    constructor
    · intro hq
      simp [ioc_tx_thread_iter, h, hq, cbc_request_enqueue]
    · intro hq
      simp [ioc_tx_thread_iter, h, hq, cbc_request_enqueue]

/-- Claim C6 (witness): the rx worker with a forward-to-tx handler on a
concrete state head-inserts the request into the tx queue. -/
theorem ioc_worker_routing_spec_witness :
    sampleRxState.rxq = sampleReq 2 :: [] ∧
    (sampleFwdHandler (sampleReq 2)).1 = CbcQueueType.tx ∧
    ioc_rx_thread_iter sampleRxState sampleFwdHandler =
      { sampleRxState with
        rxq := [],
        txq := (sampleFwdHandler (sampleReq 2)).2 :: sampleRxState.txq } :=
  ⟨rfl, rfl,
    ((ioc_worker_routing_spec sampleRxState sampleFwdHandler
      (sampleReq 2) []).1 rfl).1 rfl⟩

/-- Helper: each queue movement permutes the request places, so their
multiset is invariant under one step. -/
theorem poolStep_ms {s t : PoolState} (h : PoolStep s t) :
    ((allReqs t : List Nat) : Multiset Nat) =
      ((allReqs s : List Nat) : Multiset Nat) := by
  cases h with
  | build_ok r f hf =>
    simp only [allReqs, hf]
    simp only [← Multiset.cons_coe, ← Multiset.coe_add,
      ← Multiset.singleton_add, Multiset.coe_nil]
    abel
  | proc_tx_ok r f hf =>
    simp only [allReqs, hf]
    simp only [← Multiset.cons_coe, ← Multiset.coe_add,
      ← Multiset.singleton_add, Multiset.coe_nil]
    abel
  | proc_tx_err r f hf =>
    simp only [allReqs, hf]
    simp only [← Multiset.cons_coe, ← Multiset.coe_add,
      ← Multiset.singleton_add, Multiset.coe_nil]
    abel
  | rx_take r q hq hw =>
    simp only [allReqs, hq, hw, Option.toList_some, Option.toList_none]
    simp only [← Multiset.cons_coe, ← Multiset.coe_add,
      ← Multiset.singleton_add, Multiset.coe_nil]
    abel
  | rx_fwd r hw =>
    simp only [allReqs, hw, Option.toList_some, Option.toList_none]
    simp only [← Multiset.cons_coe, ← Multiset.coe_add,
      ← Multiset.singleton_add, Multiset.coe_nil]
    abel
  | rx_drop r hw =>
    simp only [allReqs, hw, Option.toList_some, Option.toList_none]
    simp only [← Multiset.cons_coe, ← Multiset.coe_add,
      ← Multiset.singleton_add, Multiset.coe_nil]
    abel
  | tx_take r q hq hw =>
    simp only [allReqs, hq, hw, Option.toList_some, Option.toList_none]
    simp only [← Multiset.cons_coe, ← Multiset.coe_add,
      ← Multiset.singleton_add, Multiset.coe_nil]
    abel
  | tx_fwd r hw =>
    simp only [allReqs, hw, Option.toList_some, Option.toList_none]
    simp only [← Multiset.cons_coe, ← Multiset.coe_add,
      ← Multiset.singleton_add, Multiset.coe_nil]
    abel
  | tx_drop r hw =>
    simp only [allReqs, hw, Option.toList_some, Option.toList_none]
    simp only [← Multiset.cons_coe, ← Multiset.coe_add,
      ← Multiset.singleton_add, Multiset.coe_nil]
    abel

/-- Helper: along any reachable execution the request multiset stays the
initial pool. -/
theorem poolReachable_ms (n : Nat) (s : PoolState) (h : PoolReachable n s) :
    ((allReqs s : List Nat) : Multiset Nat) =
      ((List.range n : List Nat) : Multiset Nat) := by
  induction h with
  | refl => simp [allReqs, initPoolState]
  | tail _ hstep ih => rw [poolStep_ms hstep, ih]

/-- Claim C2: in every state reachable from the initial layout (all n pool
requests on the free queue) under any interleaving of the queue movements,
the multiset of requests over the free, rx and tx queues and the two
workers equals the initial pool, and their concatenation has no duplicate,
so each request sits in exactly one place. -/
theorem ioc_request_conservation (n : Nat) (s : PoolState)
    (h : PoolReachable n s) :
    ((allReqs s : List Nat) : Multiset Nat) =
      ((List.range n : List Nat) : Multiset Nat) ∧
    (allReqs s).Nodup := by
  have hm := poolReachable_ms n s h
  refine ⟨hm, ?_⟩
  have hp : (allReqs s).Perm (List.range n) := Multiset.coe_eq_coe.mp hm
  exact hp.symm.nodup (List.nodup_range n)

/-- Claim C2 (witness): the conservation theorem applied after one
ioc_build_request step out of a pool of two requests. -/
theorem ioc_request_conservation_witness :
    PoolReachable 2 poolWitState ∧
    ((allReqs poolWitState : List Nat) : Multiset Nat) =
      ((List.range 2 : List Nat) : Multiset Nat) ∧
    (allReqs poolWitState).Nodup := by
  have hstep : PoolStep (initPoolState 2) poolWitState :=
    PoolStep.build_ok (initPoolState 2) 0 [1] (by decide)
  have hr : PoolReachable 2 poolWitState :=
    Relation.ReflTransGen.single hstep
  have hc := ioc_request_conservation 2 poolWitState hr
  exact ⟨hr, hc.1, hc.2⟩

/-- Helper: closed form of the channel-table walk, split on the two
critical opens. -/
theorem ioc_ch_init_eq (openRes : Nat → Int) :
    ioc_ch_init openRes =
      if openRes 1 < 0 then none
      else if openRes 19 < 0 then none
      else some [IOC_INIT_FD, openRes 1, openRes 2, IOC_INIT_FD, IOC_INIT_FD,
        IOC_INIT_FD, IOC_INIT_FD, openRes 7, openRes 8, openRes 9,
        openRes 10, openRes 11, openRes 12, openRes 13, openRes 14,
        openRes 15, openRes 16, openRes 17, openRes 18, openRes 19] := by
  by_cases h1 : openRes 1 < 0 <;> by_cases h19 : openRes 19 < 0 <;>
    simp [ioc_ch_init, ioc_ch_init_go, ioc_ch_open_fd, ioc_ch_stat_tbl,
      IOC_NATIVE_LFCC, IOC_NATIVE_SIGNAL, IOC_NATIVE_RAW0, IOC_NATIVE_RAW11,
      IOC_VIRTUAL_UART, h1, h19]

/-- Claim C7: the channel-table walk of ioc_ch_init fails exactly when
opening the lifecycle channel (table index 1) or the virtual UART (table
index 19) fails; when it succeeds, every other enabled channel (signal at
index 2, raw channels at 7 through 18) keeps whatever fd its open
returned, so a failed open there leaves that channel with an invalid fd
while the walk carries on. -/
theorem ioc_ch_init_spec (openRes : Nat → Int) :
    ((ioc_ch_init openRes).isSome = true ↔
      (0 ≤ openRes IOC_NATIVE_LFCC ∧ 0 ≤ openRes IOC_VIRTUAL_UART)) ∧
    (∀ fds, ioc_ch_init openRes = some fds →
      ∀ i ∈ [2, 7, 8, 9, 10, 11, 12, 13, 14, 15, 16, 17, 18],
        fds[i]? = some (openRes i)) := by
  have he := ioc_ch_init_eq openRes
  constructor
  · rw [he]
    by_cases h1 : openRes 1 < 0 <;> by_cases h19 : openRes 19 < 0 <;>
      (simp [h1, h19, IOC_NATIVE_LFCC, IOC_VIRTUAL_UART]; try omega)
  · intro fds hfds i hi
    rw [he] at hfds
    by_cases h1 : openRes 1 < 0
    · simp [h1] at hfds
    · by_cases h19 : openRes 19 < 0
      · simp [h1, h19] at hfds
      · simp only [h1, h19, if_false, Option.some.injEq] at hfds
        subst hfds
        fin_cases hi <;> rfl

/-- Claim C7 (witness): the theorem applied to an oracle where every open
succeeds except the first raw channel (index 7): initialisation succeeds
and channel 7 is left with the invalid fd -1. -/
theorem ioc_ch_init_spec_witness :
    (0 : Int) ≤ sampleOpen IOC_NATIVE_LFCC ∧
    (0 : Int) ≤ sampleOpen IOC_VIRTUAL_UART ∧
    (ioc_ch_init sampleOpen).isSome = true ∧
    (∃ fds, ioc_ch_init sampleOpen = some fds ∧
      fds[7]? = some (-1) ∧ sampleOpen 7 = -1) := by
  have h := ioc_ch_init_spec sampleOpen
  have h1 : (0 : Int) ≤ sampleOpen IOC_NATIVE_LFCC := by decide
  have h19 : (0 : Int) ≤ sampleOpen IOC_VIRTUAL_UART := by decide
  refine ⟨h1, h19, h.1.mpr ⟨h1, h19⟩, ?_⟩
  obtain ⟨fds, hfds⟩ := Option.isSome_iff_exists.mp (h.1.mpr ⟨h1, h19⟩)
  exact ⟨fds, hfds, by
    have := h.2 fds hfds 7 (by simp)
    simpa using this, by decide⟩

/-- Claim C9: whatever the platform check, the allocation results, the
channel opens and the thread creations would do, ioc_init called with boot
reason 0 returns null having performed none of those actions: no pool
allocation, no channel open, no symlink, no thread. -/
theorem ioc_init_boot_reason_zero (platform_ok alloc_ok epoll_ok
    threads_ok : Bool) (openRes : Nat → Int) :
    ioc_init platform_ok 0 alloc_ok epoll_ok openRes threads_ok =
      (false, noEffects) := by
  cases platform_ok <;> simp [ioc_init]

/-- Claim C10 (code bug): ioc_parse guards only the first strtok result,
so for the option string ",0" (the boot-reason-zero scenario of the spec)
and for a bare path with no comma the second strtok returns null and
strtoul receives a null pointer, while a well-formed "path,reason" string
hands strtoul the reason token. -/
theorem ioc_parse_strtoul_null :
    ioc_parse_strtoul_arg ",0" = some none ∧
    ioc_parse_strtoul_arg "/tmp/vuart" = some none ∧
    ioc_parse_strtoul_arg "/tmp/vuart,1" = some (some ['1']) := by
  decide

end Ioc
